import Mathlib

/-!
Verification of the gonk API gateway core against its design document.

Each Go function relevant to the checked claims is shallowly embedded as an
executable Lean definition: machine integers become `Nat` (with explicit
`% 2 ^ 32` where the Go code uses `uint32` arithmetic that can wrap),
wall-clock instants become `Nat` timestamps, `map[string]T` becomes either an
association list or a function `String → Option T`, and fallible Go functions
return `Except String α`.
-/

namespace Gonk

/-! ## Circuit breaker (`internal/resilience`, `CircuitBreaker`)

The Go struct holds `state`, `failures`, `lastFailureTime`, `successCount`
and the configuration `maxFailures`, `resetTimeout`, `halfOpenMaxReqs`.
`time.Since(lastFailureTime)` is embedded as truncated subtraction
`now - lastFailureTime` on `Nat` timestamps. -/

inductive CBState where
  | closed
  | open
  | halfOpen
deriving DecidableEq, Repr

structure CircuitBreaker where
  maxFailures : Nat
  resetTimeout : Nat
  halfOpenMaxReqs : Nat
  state : CBState
  failures : Nat
  lastFailureTime : Nat
  successCount : Nat
deriving DecidableEq, Repr

/-- Embeds `NewCircuitBreaker` with an explicit configuration:
state starts `Closed` with `failures = 0`. -/
def newCircuitBreaker (maxFailures resetTimeout halfOpenMaxReqs : Nat) :
    CircuitBreaker :=
  { maxFailures := maxFailures
    resetTimeout := resetTimeout
    halfOpenMaxReqs := halfOpenMaxReqs
    state := .closed
    failures := 0
    lastFailureTime := 0
    successCount := 0 }

/-- Embeds `CircuitBreaker.canExecute`.  Returns the admission decision and
the (possibly updated) breaker: in `Open`, when
`time.Since(lastFailureTime) > resetTimeout` the breaker moves to `HalfOpen`
with `successCount = 0` and the request is admitted; in `HalfOpen` the request
is admitted while `successCount < halfOpenMaxReqs`. -/
def canExecute (now : Nat) (cb : CircuitBreaker) : Bool × CircuitBreaker :=
  match cb.state with
  | .closed => (true, cb)
  | .open =>
      if now - cb.lastFailureTime > cb.resetTimeout then
        (true, { cb with state := .halfOpen, successCount := 0 })
      else
        (false, cb)
  | .halfOpen => (decide (cb.successCount < cb.halfOpenMaxReqs), cb)

/-- Embeds `CircuitBreaker.recordResult`; `failure = true` corresponds to a
non-nil error (upstream status ≥ 500 in the middleware wrapper). -/
def recordResult (now : Nat) (failure : Bool) (cb : CircuitBreaker) :
    CircuitBreaker :=
  if failure then
    let cb := { cb with failures := cb.failures + 1, lastFailureTime := now }
    if cb.state = .halfOpen ∨ cb.failures ≥ cb.maxFailures then
      { cb with state := .open }
    else
      cb
  else
    if cb.state = .halfOpen then
      let cb := { cb with successCount := cb.successCount + 1 }
      if cb.successCount ≥ cb.halfOpenMaxReqs then
        { cb with state := .closed, failures := 0 }
      else
        cb
    else if cb.state = .closed then
      { cb with failures := 0 }
    else
      cb

/-- An operation applied to a breaker: an `allow()` probe (`canExecute`,
whose admission result the trace discards) or a `record(success|failure)`. -/
inductive CBOp where
  | allow (now : Nat)
  | record (now : Nat) (failure : Bool)
deriving DecidableEq, Repr

def applyCBOp (cb : CircuitBreaker) (op : CBOp) : CircuitBreaker :=
  match op with
  | .allow now => (canExecute now cb).2
  | .record now failure => recordResult now failure cb

/-- Runs a sequence of allow/record operations from a freshly constructed
breaker (Closed, `failures = 0`). -/
def runCB (maxFailures resetTimeout halfOpenMaxReqs : Nat)
    (ops : List CBOp) : CircuitBreaker :=
  ops.foldl applyCBOp (newCircuitBreaker maxFailures resetTimeout halfOpenMaxReqs)

example :
    (runCB 3 10 2 [.record 0 true, .record 1 true, .record 2 true]).state
      = .open := by decide

example : (canExecute 13 (runCB 3 10 2 [.record 0 true, .record 1 true,
    .record 2 true])).1 = true := by decide

lemma recordResult_closed_opens (cb : CircuitBreaker) (now : Nat)
    (h : cb.state = .closed) (h2 : cb.maxFailures ≤ cb.failures + 1) :
    (recordResult now true cb).state = .open := by
  simp only [recordResult, if_true]
  rw [if_pos]
  · exact Or.inr h2

lemma recordResult_halfOpen_failure_opens (cb : CircuitBreaker) (now : Nat)
    (h : cb.state = .halfOpen) :
    (recordResult now true cb).state = .open := by
  simp only [recordResult, if_true]
  rw [if_pos]
  · exact Or.inl h

lemma canExecute_open_elapsed (cb : CircuitBreaker) (now : Nat)
    (h : cb.state = .open) (ht : cb.resetTimeout < now - cb.lastFailureTime) :
    canExecute now cb = (true, { cb with state := .halfOpen, successCount := 0 }) := by
  simp [canExecute, h, ht]

lemma canExecute_open_early (cb : CircuitBreaker) (now : Nat)
    (h : cb.state = .open) (ht : now - cb.lastFailureTime ≤ cb.resetTimeout) :
    canExecute now cb = (false, cb) := by
  simp [canExecute, h]
  omega

lemma recordResult_success_halfOpen_lt (cb : CircuitBreaker) (now : Nat)
    (h : cb.state = .halfOpen) (hlt : cb.successCount + 1 < cb.halfOpenMaxReqs) :
    recordResult now false cb = { cb with successCount := cb.successCount + 1 } := by
  simp only [recordResult, if_false, Bool.false_eq_true]
  rw [if_pos h, if_neg]
  omega

lemma recordResult_success_halfOpen_ge (cb : CircuitBreaker) (now : Nat)
    (h : cb.state = .halfOpen) (hge : cb.halfOpenMaxReqs ≤ cb.successCount + 1) :
    recordResult now false cb =
      { cb with successCount := cb.successCount + 1, state := .closed,
                failures := 0 } := by
  simp only [recordResult, if_false, Bool.false_eq_true]
  rw [if_pos h, if_pos]
  exact hge

lemma halfOpen_success_iterate (now : Nat) :
    ∀ (j : Nat) (cb : CircuitBreaker), cb.state = .halfOpen →
      cb.successCount + j = cb.halfOpenMaxReqs → 0 < j →
      ((recordResult now false)^[j] cb).state = .closed ∧
        ((recordResult now false)^[j] cb).failures = 0 := by
  intro j
  induction j with
  | zero => intro cb _ _ hj; omega
  | succ k ih =>
      intro cb h hsum _
      rw [Function.iterate_succ_apply]
      rcases Nat.eq_zero_or_pos k with hk | hk
      · subst hk
        rw [recordResult_success_halfOpen_ge cb now h (by omega)]
        simp
      · rw [recordResult_success_halfOpen_lt cb now h (by omega)]
        refine ih _ ?_ ?_ hk
        · simpa using h
        · show cb.successCount + 1 + k = cb.halfOpenMaxReqs
          omega

lemma applyCBOp_config (cb : CircuitBreaker) (op : CBOp) :
    (applyCBOp cb op).maxFailures = cb.maxFailures ∧
    (applyCBOp cb op).resetTimeout = cb.resetTimeout ∧
    (applyCBOp cb op).halfOpenMaxReqs = cb.halfOpenMaxReqs := by
  cases op with
  | allow now =>
      simp only [applyCBOp, canExecute]
      split <;> try split
      all_goals simp
  | record now failure =>
      simp only [applyCBOp, recordResult]
      split_ifs <;> simp

lemma runCB_foldl_config (ops : List CBOp) :
    ∀ cb : CircuitBreaker,
      (ops.foldl applyCBOp cb).maxFailures = cb.maxFailures ∧
      (ops.foldl applyCBOp cb).resetTimeout = cb.resetTimeout ∧
      (ops.foldl applyCBOp cb).halfOpenMaxReqs = cb.halfOpenMaxReqs := by
  induction ops with
  | nil => intro cb; simp
  | cons op rest ih =>
      intro cb
      have h1 := applyCBOp_config cb op
      have h2 := ih (applyCBOp cb op)
      simp only [List.foldl_cons]
      omega

lemma runCB_config (mf rt hm : Nat) (ops : List CBOp) :
    (runCB mf rt hm ops).maxFailures = mf ∧
    (runCB mf rt hm ops).resetTimeout = rt ∧
    (runCB mf rt hm ops).halfOpenMaxReqs = hm :=
  runCB_foldl_config ops (newCircuitBreaker mf rt hm)

/-- C1 (amended: the Open→HalfOpen transition on `allow()` happens exactly
when strictly more than `reset_timeout` has elapsed since the last failure,
not when at least `reset_timeout` has elapsed).  For every breaker reached
from the initial Closed state by a sequence of allow/record operations:
a `record(failure)` in Closed that raises the failure count to at least
`max_failures` moves the breaker to Open; an `allow()` in Open moves it to
HalfOpen with the success counter reset to 0 and admits the request exactly
when `now - last_failure_at > reset_timeout`, and returns `false` leaving the
state unchanged otherwise; in HalfOpen, `half_open_max_reqs` consecutive
`record(success)` calls move it to Closed and reset the failure counter, and
any `record(failure)` moves it back to Open. -/
theorem circuitBreaker_c1 (mf rt hm : Nat) (ops : List CBOp) (now : Nat) :
    ((runCB mf rt hm ops).state = .closed →
        mf ≤ (runCB mf rt hm ops).failures + 1 →
        (recordResult now true (runCB mf rt hm ops)).state = .open) ∧
    ((runCB mf rt hm ops).state = .open →
        (rt < now - (runCB mf rt hm ops).lastFailureTime →
          canExecute now (runCB mf rt hm ops) =
            (true, { runCB mf rt hm ops with
                      state := .halfOpen, successCount := 0 })) ∧
        (now - (runCB mf rt hm ops).lastFailureTime ≤ rt →
          canExecute now (runCB mf rt hm ops) = (false, runCB mf rt hm ops))) ∧
    ((runCB mf rt hm ops).state = .halfOpen →
        (recordResult now true (runCB mf rt hm ops)).state = .open ∧
        ((runCB mf rt hm ops).successCount = 0 → 0 < hm →
          ((recordResult now false)^[hm] (runCB mf rt hm ops)).state = .closed ∧
          ((recordResult now false)^[hm] (runCB mf rt hm ops)).failures = 0)) := by
  obtain ⟨hmf, hrt, hhm⟩ := runCB_config mf rt hm ops
  refine ⟨?_, ?_, ?_⟩
  · intro h h2
    exact recordResult_closed_opens _ now h (by omega)
  · intro h
    exact ⟨fun ht => canExecute_open_elapsed _ now h (by omega),
           fun ht => canExecute_open_early _ now h (by omega)⟩
  · intro h
    refine ⟨recordResult_halfOpen_failure_opens _ now h, ?_⟩
    intro hz hpos
    have := halfOpen_success_iterate now hm (runCB mf rt hm ops) h (by omega) hpos
    exact this

/-- Witness for C1: with `max_failures = 1`, `reset_timeout = 5`,
`half_open_max_reqs = 1`, after a failure recorded at time 0 the breaker is
Open, and an `allow()` at time 6 (elapsed 6 > 5) admits the request and moves
the breaker to HalfOpen. -/
theorem circuitBreaker_c1_witness :
    canExecute 6 (runCB 1 5 1 [CBOp.record 0 true]) =
      (true, { runCB 1 5 1 [CBOp.record 0 true] with
                state := CBState.halfOpen, successCount := 0 }) :=
  ((circuitBreaker_c1 1 5 1 [CBOp.record 0 true] 6).2.1 (by decide)).1 (by decide)

/-- Counterexample to C1 as stated: with `reset_timeout = 5` and a failure
recorded at time 0, an `allow()` at time 5 — at which point at least
`reset_timeout` has elapsed (`5 - 0 ≥ 5`) — still returns `false` and leaves
the breaker Open, because `canExecute` requires strictly more than
`reset_timeout` to elapse (`time.Since(lastFailureTime) > resetTimeout`). -/
theorem circuitBreaker_c1_counterexample :
    (runCB 1 5 1 [CBOp.record 0 true]).state = CBState.open ∧
    (runCB 1 5 1 [CBOp.record 0 true]).resetTimeout ≤
      5 - (runCB 1 5 1 [CBOp.record 0 true]).lastFailureTime ∧
    (canExecute 5 (runCB 1 5 1 [CBOp.record 0 true])).1 = false ∧
    (canExecute 5 (runCB 1 5 1 [CBOp.record 0 true])).2.state = CBState.open := by
  decide

/-- C2 (amended: in HalfOpen, `allow()` returns `true` exactly while the
number of successes recorded in the current half-open window is below
`half_open_max_reqs`; admissions whose outcomes have not yet been recorded are
not counted, so more than `half_open_max_reqs` requests can be admitted
concurrently).  The probe itself does not change the breaker state. -/
theorem circuitBreaker_c2 (mf rt hm : Nat) (ops : List CBOp) (now : Nat)
    (h : (runCB mf rt hm ops).state = .halfOpen) :
    ((canExecute now (runCB mf rt hm ops)).1 = true ↔
      (runCB mf rt hm ops).successCount < hm) ∧
    (canExecute now (runCB mf rt hm ops)).2 = runCB mf rt hm ops := by
  obtain ⟨hmf, hrt, hhm⟩ := runCB_config mf rt hm ops
  simp [canExecute, h, hhm]

/-- Witness for C2: with `half_open_max_reqs = 2`, after one failure at time 0
(breaker Open) and an `allow()` at time 1 the breaker is HalfOpen with no
recorded successes, so a further `allow()` is admitted (`0 < 2`). -/
theorem circuitBreaker_c2_witness :
    ((canExecute 2 (runCB 1 0 2 [CBOp.record 0 true, CBOp.allow 1])).1 = true ↔
      (runCB 1 0 2 [CBOp.record 0 true, CBOp.allow 1]).successCount < 2) ∧
    (canExecute 2 (runCB 1 0 2 [CBOp.record 0 true, CBOp.allow 1])).2 =
      runCB 1 0 2 [CBOp.record 0 true, CBOp.allow 1] :=
  circuitBreaker_c2 1 0 2 [CBOp.record 0 true, CBOp.allow 1] 2 (by decide)

/-- Counterexample to C2 as stated: with `half_open_max_reqs = 1`, after a
failure at time 0 a first `allow()` at time 1 admits a request and moves the
breaker to HalfOpen; with that admission's outcome still unrecorded, a second
`allow()` also returns `true`, though the claim requires every `allow()`
beyond `half_open_max_reqs` concurrent admissions to return `false`.
`canExecute` counts recorded successes, not outstanding admissions. -/
theorem circuitBreaker_c2_counterexample :
    (canExecute 1 (runCB 1 0 1 [CBOp.record 0 true])).1 = true ∧
    (canExecute 1 (runCB 1 0 1 [CBOp.record 0 true])).2.state =
      CBState.halfOpen ∧
    (canExecute 1 (runCB 1 0 1 [CBOp.record 0 true])).2.halfOpenMaxReqs = 1 ∧
    (canExecute 1 (canExecute 1 (runCB 1 0 1 [CBOp.record 0 true])).2).1
      = true := by
  decide

/-! ## Load balancer (`internal/loadbalancer`)

`UpstreamState` carries the fields the selection logic reads: `url`,
`weight` (the constructor replaces a configured weight of 0 by 100, so the
runtime weight is a positive natural number; the design document restricts
weights to `[0, ∞)`), `healthy` and the `ActiveConns` counter (an `int32` in
Go, embedded as `Int`).  The rotating cursor is a `uint32` bumped with
`atomic.AddUint32`, embedded as a `Nat` reduced `% 2 ^ 32`. -/

structure Upstream where
  url : String
  weight : Nat
  healthy : Bool
  activeConns : Int
deriving DecidableEq, Repr

/-- Embeds `LoadBalancer.getHealthyUpstreams`: the healthy subset, or the
full list when no upstream is healthy (degraded mode, "allow retry"). -/
def getHealthyUpstreams (us : List Upstream) : List Upstream :=
  let healthy := us.filter (·.healthy)
  if healthy.isEmpty then us else healthy

/-- Embeds `LoadBalancer.roundRobin`: `upstreams[int(index) % len(upstreams)]`
where `index` is the already-incremented cursor. -/
def roundRobin (us : List Upstream) (index : Nat) : Option Upstream :=
  us[index % us.length]?

def totalWeight (us : List Upstream) : Nat :=
  (us.map (·.weight)).sum

/-- The accumulating walk inside `LoadBalancer.weighted`: returns the
position of the first upstream whose accumulated weight exceeds the target. -/
def weightedWalkIdx (target : Nat) : List Upstream → Nat → Option Nat
  | [], _ => none
  | u :: rest, acc =>
      if target < acc + u.weight then some 0
      else (weightedWalkIdx target rest (acc + u.weight)).map (· + 1)

/-- The index selected by `LoadBalancer.weighted`:
`targetWeight := int(index) % totalWeight`, then the walk. -/
def weightedIdx (us : List Upstream) (index : Nat) : Option Nat :=
  weightedWalkIdx (index % totalWeight us) us 0

/-- Embeds `LoadBalancer.weighted`: the upstream at the walk's position, or
the first upstream as fallback when the walk finds none.  (In Go a total
weight of 0 would panic on `% totalWeight`; the claims only concern positive
total weight.) -/
def weighted (us : List Upstream) (index : Nat) : Option Upstream :=
  match weightedIdx us index with
  | some i => us[i]?
  | none => us[0]?

/-- The scan inside `LoadBalancer.leastConnections`: fold over the upstreams
keeping the first upstream seen with strictly fewer active connections than
the running minimum, which starts at `math.MaxInt32`. -/
def lcScan (us : List Upstream) : Option Upstream × Int :=
  us.foldl
    (fun (p : Option Upstream × Int) u =>
      if u.activeConns < p.2 then (some u, u.activeConns) else p)
    (none, (2 : Int) ^ 31 - 1)

/-- Embeds `LoadBalancer.leastConnections`; falls back to the first upstream
when the scan selected nothing. -/
def leastConnections (us : List Upstream) : Option Upstream :=
  match (lcScan us).1 with
  | some u => some u
  | none => us[0]?

/-- Embeds `hashString`: `h = h*31 + c` over the characters of the client IP,
in `uint32` arithmetic. -/
def hashString (s : String) : Nat :=
  s.data.foldl (fun h c => (h * 31 + c.toNat) % 2 ^ 32) 0

/-- Embeds `LoadBalancer.ipHash`: `upstreams[hash(clientIP) % len]`. -/
def ipHash (us : List Upstream) (clientIP : String) : Option Upstream :=
  us[hashString clientIP % us.length]?

/-- The strategy dispatch inside `GetNextUpstream`; unknown strategies fall
back to round-robin, as in the Go `switch`. -/
def selectUpstream (strategy : String) (index : Nat) (clientIP : String)
    (us : List Upstream) : Option Upstream :=
  if strategy = "round-robin" then roundRobin us index
  else if strategy = "weighted" then weighted us index
  else if strategy = "least-connections" then leastConnections us
  else if strategy = "ip-hash" then ipHash us clientIP
  else roundRobin us index

/-- Embeds `LoadBalancer.GetNextUpstream`.  `index` is the incremented
cursor value used by the cursor-based strategies.  The Go selection helpers
index into a list they have checked to be non-empty and cannot yield `none`;
that unreachable case is embedded as the same error as the empty check. -/
def getNextUpstream (strategy : String) (index : Nat) (clientIP : String)
    (us : List Upstream) : Except String Upstream :=
  let healthy := getHealthyUpstreams us
  if healthy.isEmpty then .error "no healthy upstreams available"
  else
    match selectUpstream strategy index clientIP healthy with
    | some u => .ok u
    | none => .error "no healthy upstreams available"

example :
    getNextUpstream "round-robin" 1 "10.0.0.1"
      [⟨"http://a", 100, false, 0⟩, ⟨"http://b", 100, true, 0⟩] =
    .ok ⟨"http://b", 100, true, 0⟩ := rfl

example :
    getNextUpstream "weighted" 7 "10.0.0.1"
      [⟨"http://a", 70, true, 0⟩, ⟨"http://b", 30, true, 0⟩] =
    .ok ⟨"http://a", 70, true, 0⟩ := rfl

lemma getElem?_mem_of_lt (us : List Upstream) (i : Nat) (hi : i < us.length) :
    ∃ u, us[i]? = some u ∧ u ∈ us := by
  refine ⟨us[i], ?_, ?_⟩
  · exact List.getElem?_eq_getElem hi
  · exact List.getElem_mem hi

lemma roundRobin_mem (us : List Upstream) (index : Nat) (h : us ≠ []) :
    ∃ u, roundRobin us index = some u ∧ u ∈ us := by
  have hlen : 0 < us.length := List.length_pos.2 h
  exact getElem?_mem_of_lt us _ (Nat.mod_lt _ hlen)

lemma weightedWalkIdx_lt (target : Nat) :
    ∀ (us : List Upstream) (acc i : Nat),
      weightedWalkIdx target us acc = some i → i < us.length := by
  intro us
  induction us with
  | nil => intro acc i hw; simp [weightedWalkIdx] at hw
  | cons u rest ih =>
      intro acc i hw
      simp only [weightedWalkIdx] at hw
      split at hw
      · cases hw; simp
      · simp only [Option.map_eq_some'] at hw
        obtain ⟨j, hj, rfl⟩ := hw
        have := ih _ _ hj
        simp
        omega

lemma weighted_mem (us : List Upstream) (index : Nat) (h : us ≠ []) :
    ∃ u, weighted us index = some u ∧ u ∈ us := by
  have hlen : 0 < us.length := List.length_pos.2 h
  unfold weighted
  cases hw : weightedIdx us index with
  | none => exact getElem?_mem_of_lt us 0 hlen
  | some i => exact getElem?_mem_of_lt us i (weightedWalkIdx_lt _ us 0 i hw)

lemma leastConnections_scan_mem :
    ∀ (l : List Upstream) (acc : Option Upstream × Int) (u : Upstream),
      (l.foldl
        (fun (p : Option Upstream × Int) v =>
          if v.activeConns < p.2 then (some v, v.activeConns) else p) acc).1
          = some u →
      acc.1 = some u ∨ u ∈ l := by
  intro l
  induction l with
  | nil => intro acc u hw; exact Or.inl hw
  | cons v rest ih =>
      intro acc u hw
      simp only [List.foldl_cons] at hw
      rcases ih _ u hw with hacc | hmem
      · by_cases hc : v.activeConns < acc.2
        · rw [if_pos hc] at hacc
          cases hacc
          exact Or.inr (by simp)
        · rw [if_neg hc] at hacc
          exact Or.inl hacc
      · exact Or.inr (by simp [hmem])

lemma leastConnections_mem (us : List Upstream) (h : us ≠ []) :
    ∃ u, leastConnections us = some u ∧ u ∈ us := by
  have hlen : 0 < us.length := List.length_pos.2 h
  cases hw : (lcScan us).1 with
  | none => simpa [leastConnections, hw] using getElem?_mem_of_lt us 0 hlen
  | some u =>
      refine ⟨u, by simp [leastConnections, hw], ?_⟩
      rcases leastConnections_scan_mem us _ u hw with hacc | hmem
      · cases hacc
      · exact hmem

lemma ipHash_mem (us : List Upstream) (ip : String) (h : us ≠ []) :
    ∃ u, ipHash us ip = some u ∧ u ∈ us := by
  have hlen : 0 < us.length := List.length_pos.2 h
  exact getElem?_mem_of_lt us _ (Nat.mod_lt _ hlen)

lemma selectUpstream_mem (strategy : String) (index : Nat) (ip : String)
    (us : List Upstream) (h : us ≠ []) :
    ∃ u, selectUpstream strategy index ip us = some u ∧ u ∈ us := by
  unfold selectUpstream
  split_ifs
  · exact roundRobin_mem us index h
  · exact weighted_mem us index h
  · exact leastConnections_mem us h
  · exact ipHash_mem us ip h
  · exact roundRobin_mem us index h

lemma getHealthyUpstreams_ne_nil (us : List Upstream) (h : us ≠ []) :
    getHealthyUpstreams us ≠ [] := by
  simp only [getHealthyUpstreams]
  split <;> simp_all

lemma getHealthyUpstreams_eq (us : List Upstream) :
    (us.filter (·.healthy) ≠ [] →
      getHealthyUpstreams us = us.filter (·.healthy)) ∧
    (us.filter (·.healthy) = [] → getHealthyUpstreams us = us) := by
  simp only [getHealthyUpstreams]
  constructor <;> intro h <;> simp [h]

/-- C3: for every load balancer built from a non-empty upstream list,
`GetNextUpstream` never returns an error; the chosen upstream lies in the
healthy subset whenever at least one upstream is healthy, and in the full
upstream list (degraded mode) when every upstream is unhealthy. -/
theorem getNextUpstream_c3 (strategy : String) (index : Nat) (ip : String)
    (us : List Upstream) (h : us ≠ []) :
    ∃ u, getNextUpstream strategy index ip us = .ok u ∧
      (us.filter (·.healthy) ≠ [] → u ∈ us.filter (·.healthy)) ∧
      (us.filter (·.healthy) = [] → u ∈ us) := by
  have hne := getHealthyUpstreams_ne_nil us h
  obtain ⟨u, hsel, hmem⟩ :=
    selectUpstream_mem strategy index ip (getHealthyUpstreams us) hne
  refine ⟨u, ?_, ?_, ?_⟩
  · unfold getNextUpstream
    rw [if_neg (by simpa using hne)]
    simp [hsel]
  · intro hf
    rwa [(getHealthyUpstreams_eq us).1 hf] at hmem
  · intro hf
    rwa [(getHealthyUpstreams_eq us).2 hf] at hmem

/-- Witness for C3: a two-upstream pool where only the second upstream is
healthy; selection succeeds and picks from the healthy subset. -/
theorem getNextUpstream_c3_witness :
    ∃ u, getNextUpstream "round-robin" 4 "10.0.0.1"
        [⟨"http://a", 100, false, 0⟩, ⟨"http://b", 100, true, 0⟩] = .ok u ∧
      (([⟨"http://a", 100, false, 0⟩,
         (⟨"http://b", 100, true, 0⟩ : Upstream)].filter (·.healthy)) ≠ [] →
        u ∈ [⟨"http://a", 100, false, 0⟩,
             (⟨"http://b", 100, true, 0⟩ : Upstream)].filter (·.healthy)) ∧
      (([⟨"http://a", 100, false, 0⟩,
         (⟨"http://b", 100, true, 0⟩ : Upstream)].filter (·.healthy)) = [] →
        u ∈ [⟨"http://a", 100, false, 0⟩,
             (⟨"http://b", 100, true, 0⟩ : Upstream)]) :=
  getNextUpstream_c3 "round-robin" 4 "10.0.0.1"
    [⟨"http://a", 100, false, 0⟩, ⟨"http://b", 100, true, 0⟩] (by simp)

lemma totalWeight_cons (u : Upstream) (l : List Upstream) :
    totalWeight (u :: l) = u.weight + totalWeight l := by
  simp [totalWeight]

lemma totalWeight_take_succ :
    ∀ (us : List Upstream) (i : Nat) (hi : i < us.length),
      totalWeight (us.take (i + 1)) =
        totalWeight (us.take i) + us[i].weight := by
  intro us
  induction us with
  | nil => intro i hi; simp at hi
  | cons u rest ih =>
      intro i hi
      cases i with
      | zero => simp [totalWeight]
      | succ j =>
          have hj : j < rest.length := by simpa using hi
          simp only [List.take_succ_cons, totalWeight_cons, ih j hj,
            List.getElem_cons_succ]
          omega

lemma totalWeight_take_le (us : List Upstream) (n : Nat) :
    totalWeight (us.take n) ≤ totalWeight us := by
  conv_rhs => rw [← List.take_append_drop n us]
  simp only [totalWeight, List.map_append, List.sum_append]
  omega

lemma weightedWalkIdx_some_iff (t : Nat) :
    ∀ (us : List Upstream) (acc i : Nat), acc ≤ t →
      (weightedWalkIdx t us acc = some i ↔
        i < us.length ∧ acc + totalWeight (us.take i) ≤ t ∧
          t < acc + totalWeight (us.take (i + 1))) := by
  intro us
  induction us with
  | nil =>
      intro acc i hacc
      simp [weightedWalkIdx]
  | cons u rest ih =>
      intro acc i hacc
      simp only [weightedWalkIdx]
      by_cases hc : t < acc + u.weight
      · rw [if_pos hc]
        cases i with
        | zero =>
            simp only [List.take_succ_cons, List.take_zero, totalWeight_cons,
              List.length_cons, Option.some.injEq]
            simp [totalWeight]
            omega
        | succ j =>
            simp only [List.take_succ_cons, totalWeight_cons,
              List.length_cons, Option.some.injEq]
            simp
            omega
      · rw [if_neg hc]
        push_neg at hc
        cases i with
        | zero =>
            simp only [Option.map_eq_some', List.take_succ_cons,
              List.take_zero, totalWeight_cons, List.length_cons]
            simp [totalWeight]
            omega
        | succ j =>
            rw [show ((weightedWalkIdx t rest (acc + u.weight)).map (· + 1)
                  = some (j + 1)) ↔
                (weightedWalkIdx t rest (acc + u.weight) = some j) from by
              simp [Option.map_eq_some']]
            rw [ih (acc + u.weight) j hc]
            simp only [List.take_succ_cons, totalWeight_cons,
              List.length_cons]
            omega

lemma weightedIdx_count (us : List Upstream) (i : Nat) (hi : i < us.length) :
    ((Finset.range (totalWeight us)).filter
        (fun t => weightedWalkIdx t us 0 = some i)).card = us[i].weight := by
  have hco : ∀ t ∈ Finset.range (totalWeight us),
      (weightedWalkIdx t us 0 = some i ↔
        totalWeight (us.take i) ≤ t ∧ t < totalWeight (us.take (i + 1))) := by
    intro t _
    rw [weightedWalkIdx_some_iff t us 0 i (Nat.zero_le t)]
    simp [hi]
  rw [Finset.filter_congr hco]
  have hsucc := totalWeight_take_succ us i hi
  have hle := totalWeight_take_le us (i + 1)
  have hico : (Finset.range (totalWeight us)).filter
      (fun t => totalWeight (us.take i) ≤ t ∧
        t < totalWeight (us.take (i + 1)))
      = Finset.Ico (totalWeight (us.take i)) (totalWeight (us.take (i + 1))) := by
    ext t
    simp only [Finset.mem_filter, Finset.mem_range, Finset.mem_Ico]
    omega
  rw [hico, Nat.card_Ico]
  omega

lemma mod_shift_right_inv (W a t : Nat) (hW : 0 < W) (ht : t < W) :
    (a + (t + (W - a % W)) % W) % W = t := by
  have hlt : a % W < W := Nat.mod_lt _ hW
  obtain ⟨q, hq⟩ : ∃ q, W * q + a % W = a := ⟨a / W, Nat.div_add_mod a W⟩
  have h1 : (a + (t + (W - a % W)) % W) % W
      = (a + (t + (W - a % W))) % W :=
    Nat.ModEq.add_left a (Nat.mod_modEq _ W)
  have hmul : W * (q + 1) = W * q + W := by ring
  have h2 : a + (t + (W - a % W)) = t + W * (q + 1) := by omega
  rw [h1, h2, Nat.add_mul_mod_self_left, Nat.mod_eq_of_lt ht]

lemma mod_shift_left_inv (W a k : Nat) (hW : 0 < W) (hk : k < W) :
    ((a + k) % W + (W - a % W)) % W = k := by
  have hlt : a % W < W := Nat.mod_lt _ hW
  obtain ⟨q, hq⟩ : ∃ q, W * q + (a + k) % W = a + k :=
    ⟨(a + k) / W, Nat.div_add_mod (a + k) W⟩
  have hlt2 : (a + k) % W < W := Nat.mod_lt _ hW
  obtain ⟨r, hr⟩ : ∃ r, W * r + a % W = a := ⟨a / W, Nat.div_add_mod a W⟩
  have h1 : ((a + k) % W + (W - a % W)) % W
      = ((a + k) + (W - a % W)) % W :=
    Nat.ModEq.add_right _ (Nat.mod_modEq _ W)
  have hmul : W * (r + 1) = W * r + W := by ring
  have h2 : (a + k) + (W - a % W) = k + W * (r + 1) := by omega
  rw [h1, h2, Nat.add_mul_mod_self_left, Nat.mod_eq_of_lt hk]

lemma filter_range_mod_shift_card (W a : Nat) (hW : 0 < W)
    (p : Nat → Prop) [DecidablePred p] :
    ((Finset.range W).filter (fun k => p ((a + k) % W))).card =
      ((Finset.range W).filter p).card := by
  apply Finset.card_nbij' (fun k => (a + k) % W)
      (fun t => (t + (W - a % W)) % W)
  · intro k hk
    simp only [Finset.mem_coe, Finset.mem_filter, Finset.mem_range] at hk ⊢
    exact ⟨Nat.mod_lt _ hW, hk.2⟩
  · intro t ht
    simp only [Finset.mem_coe, Finset.mem_filter, Finset.mem_range] at ht ⊢
    refine ⟨Nat.mod_lt _ hW, ?_⟩
    rw [mod_shift_right_inv W a t hW ht.1]
    exact ht.2
  · intro k hk
    simp only [Finset.mem_coe, Finset.mem_filter, Finset.mem_range] at hk
    exact mod_shift_left_inv W a k hW hk.1
  · intro t ht
    simp only [Finset.mem_coe, Finset.mem_filter, Finset.mem_range] at ht
    exact mod_shift_right_inv W a t hW ht.1

/-- C7: with the weighted strategy over a healthy list `us` with per-upstream
weights summing to `W = totalWeight us > 0`, each selection takes the target
`t = index % W` (where `index` is the incremented `uint32` cursor) and walks
the list accumulating weights, choosing the first upstream whose accumulated
weight exceeds `t`; over `W` consecutive selections — cursor values
`c+1, …, c+W`, not crossing the `uint32` wrap — position `i` is chosen
exactly `weight i` times, and each such selection returns upstream `us[i]`. -/
theorem weighted_c7 (us : List Upstream) (c i : Nat) (hi : i < us.length)
    (hW : 0 < totalWeight us) (hwrap : c + totalWeight us < 2 ^ 32) :
    ((Finset.range (totalWeight us)).filter
        (fun k => weightedIdx us ((c + 1 + k) % 2 ^ 32) = some i)).card
      = us[i].weight ∧
    (∀ k, weightedIdx us ((c + 1 + k) % 2 ^ 32) = some i →
      weighted us ((c + 1 + k) % 2 ^ 32) = some us[i]) := by
  constructor
  · have h1 : (Finset.range (totalWeight us)).filter
        (fun k => weightedIdx us ((c + 1 + k) % 2 ^ 32) = some i)
        = (Finset.range (totalWeight us)).filter
            (fun k => weightedWalkIdx ((c + 1 + k) % totalWeight us) us 0
              = some i) := by
      refine Finset.filter_congr ?_
      intro k hk
      rw [Finset.mem_range] at hk
      rw [Nat.mod_eq_of_lt (by omega)]
      exact Iff.rfl
    rw [h1]
    exact Eq.trans
      (filter_range_mod_shift_card (totalWeight us) (c + 1) hW
        (fun t => weightedWalkIdx t us 0 = some i))
      (weightedIdx_count us i hi)
  · intro k hsel
    unfold weighted
    rw [hsel]
    simp [List.getElem?_eq_getElem hi]

/-- Witness for C7: upstreams with weights 2 and 1 (total 3); over selections
with cursor values 1, 2, 3 the first upstream is chosen exactly twice. -/
theorem weighted_c7_witness :
    ((Finset.range (totalWeight
        [⟨"http://a", 2, true, 0⟩, ⟨"http://b", 1, true, 0⟩])).filter
        (fun k => weightedIdx
          [⟨"http://a", 2, true, 0⟩, ⟨"http://b", 1, true, 0⟩]
          ((0 + 1 + k) % 2 ^ 32) = some 0)).card
      = (([⟨"http://a", 2, true, 0⟩,
           (⟨"http://b", 1, true, 0⟩ : Upstream)] : List Upstream)[0]).weight :=
  (weighted_c7 [⟨"http://a", 2, true, 0⟩, ⟨"http://b", 1, true, 0⟩] 0 0
    (by decide) (by decide) (by decide)).1

/-! ## gRPC framed passthrough (`internal/proxy/grpc.go`)

The wire stream is a list of bytes (`Nat`, values < 256 in practice).  A
frame is 1 byte compressed flag, 4 bytes big-endian length, payload.
`readGRPCFrame` reads the 5-byte header with `io.ReadFull` (an error on a
short stream), rejects lengths above 16 MiB, reads the payload, rejects
`compressed == 1`, and returns the complete undecoded frame;
`writeGRPCFrame` writes the frame bytes unchanged. -/

/-- Big-endian 32-bit decoding, `binary.BigEndian.Uint32`. -/
def be32dec (b1 b2 b3 b4 : Nat) : Nat :=
  ((b1 * 256 + b2) * 256 + b3) * 256 + b4

/-- Big-endian 32-bit encoding of a length (a `uint32` in Go). -/
def be32enc (n : Nat) : List Nat :=
  [n / 2 ^ 24 % 256, n / 2 ^ 16 % 256, n / 2 ^ 8 % 256, n % 256]

/-- A gRPC frame as laid out on the wire: compressed flag, big-endian
length of the payload, payload bytes. -/
def mkFrame (flag : Nat) (payload : List Nat) : List Nat :=
  flag :: be32enc payload.length ++ payload

/-- Embeds `readGRPCFrame`: returns the frame bytes (header plus payload,
undecoded) together with the unread remainder of the stream. -/
def readGRPCFrame (input : List Nat) :
    Except String (List Nat × List Nat) :=
  match input with
  | b0 :: b1 :: b2 :: b3 :: b4 :: rest =>
      let length := be32dec b1 b2 b3 b4
      if 16 * 1024 * 1024 < length then .error "message too large"
      else if rest.length < length then .error "unexpected EOF"
      else if b0 = 1 then .error "compressed messages not supported"
      else .ok (b0 :: b1 :: b2 :: b3 :: b4 :: rest.take length,
                rest.drop length)
  | _ => .error "unexpected EOF"

/-- Embeds `writeGRPCFrame`: the frame bytes are written to the stream
unchanged. -/
def writeGRPCFrame (frame : List Nat) : List Nat :=
  frame

example :
    readGRPCFrame (writeGRPCFrame (mkFrame 0 [10, 20]) ++ [99]) =
      .ok (mkFrame 0 [10, 20], [99]) := rfl

lemma be32_roundtrip (n : Nat) (h : n < 2 ^ 32) :
    be32dec (n / 2 ^ 24 % 256) (n / 2 ^ 16 % 256) (n / 2 ^ 8 % 256)
      (n % 256) = n := by
  simp only [be32dec]
  omega

/-- C8: gRPC frame encode/decode round-trip.  For a frame with compressed
flag 0 and payload of at most 16 MiB, writing it with `writeGRPCFrame` and
reading the stream back with `readGRPCFrame` yields exactly the written
bytes (flag, big-endian length, payload) and leaves the rest of the stream
untouched; a frame with compressed flag 1 is rejected with an error, as is a
frame whose length field exceeds 16 MiB. -/
theorem grpcFrame_c8 (payload rest : List Nat) :
    (payload.length ≤ 16 * 1024 * 1024 →
      readGRPCFrame (writeGRPCFrame (mkFrame 0 payload) ++ rest)
        = .ok (mkFrame 0 payload, rest)) ∧
    (payload.length ≤ 16 * 1024 * 1024 →
      readGRPCFrame (writeGRPCFrame (mkFrame 1 payload) ++ rest)
        = .error "compressed messages not supported") ∧
    (16 * 1024 * 1024 < payload.length → payload.length < 2 ^ 32 →
      readGRPCFrame (writeGRPCFrame (mkFrame 0 payload) ++ rest)
        = .error "message too large") := by
  have hdec : ∀ h : payload.length < 2 ^ 32,
      be32dec (payload.length / 2 ^ 24 % 256) (payload.length / 2 ^ 16 % 256)
        (payload.length / 2 ^ 8 % 256) (payload.length % 256)
      = payload.length :=
    fun h => be32_roundtrip payload.length h
  refine ⟨?_, ?_, ?_⟩
  · intro hle
    simp only [writeGRPCFrame, mkFrame, be32enc, List.cons_append,
      List.append_assoc, List.nil_append, readGRPCFrame]
    rw [hdec (by omega)]
    rw [if_neg (by omega),
      if_neg (by simp only [List.length_append]; omega),
      if_neg (by omega)]
    rw [List.take_left, List.drop_left]
  · intro hle
    simp only [writeGRPCFrame, mkFrame, be32enc, List.cons_append,
      List.append_assoc, List.nil_append, readGRPCFrame]
    rw [hdec (by omega)]
    rw [if_neg (by omega),
      if_neg (by simp only [List.length_append]; omega)]
    simp
  · intro hgt hlt
    simp only [writeGRPCFrame, mkFrame, be32enc, List.cons_append,
      List.append_assoc, List.nil_append, readGRPCFrame]
    rw [hdec hlt]
    rw [if_pos (by omega)]

/-- Witness for C8: the frame with flag 0 and payload `[10, 20]` followed by
a stray byte round-trips exactly, leaving the stray byte unread. -/
theorem grpcFrame_c8_witness :
    readGRPCFrame (writeGRPCFrame (mkFrame 0 [10, 20]) ++ [99])
      = .ok (mkFrame 0 [10, 20], [99]) :=
  (grpcFrame_c8 [10, 20] [99]).1 (by decide)

/-! ## Scope authorization (`internal/auth/authorization.go`)

Scopes are byte strings; they are embedded as `List Char` so that the Go
`strings` operations (`HasSuffix`, `TrimSuffix`, `HasPrefix`) become
provable list operations. -/

/-- Embeds `strings.TrimSuffix`: removes one trailing occurrence of
`suffix` when present. -/
def trimSuffix (s suffix : List Char) : List Char :=
  if suffix.isSuffixOf s then s.take (s.length - suffix.length) else s

/-- Embeds `matchScope`: exact match, or wildcard `prefix:*` on either the
held scope or the required scope. -/
def matchScope (userScope requiredScope : List Char) : Bool :=
  if userScope = requiredScope then true
  else if ([':', '*'] : List Char).isSuffixOf userScope then
    (trimSuffix userScope [':', '*'] ++ [':']).isPrefixOf requiredScope
  else if ([':', '*'] : List Char).isSuffixOf requiredScope then
    (trimSuffix requiredScope [':', '*'] ++ [':']).isPrefixOf userScope
  else false

/-- Embeds `hasAllScopes`: every required scope is matched by some held
scope. -/
def hasAllScopes (userScopes requiredScopes : List (List Char)) : Bool :=
  requiredScopes.all fun required =>
    userScopes.any fun userScope => matchScope userScope required

example : matchScope "read:*".data "read:sensors".data = true := by decide

example : matchScope "read:*".data "write:sensors".data = false := by decide

lemma trimSuffix_append (p suffix : List Char) :
    trimSuffix (p ++ suffix) suffix = p := by
  unfold trimSuffix
  rw [if_pos (by rw [List.isSuffixOf_iff_suffix]; exact List.suffix_append p suffix)]
  rw [List.length_append, Nat.add_sub_cancel, List.take_left]

/-- C10: a held scope of the form `prefix:*` matches every required scope of
the form `prefix:suffix` (the wildcard is honoured on the caller's side);
consequently a scope set containing `prefix:*` satisfies the requirement
`prefix:suffix` under `hasAllScopes`. -/
theorem matchScope_c10 (p s : List Char) (userScopes : List (List Char))
    (h : (p ++ [':', '*']) ∈ userScopes) :
    matchScope (p ++ [':', '*']) (p ++ ':' :: s) = true ∧
    hasAllScopes userScopes [p ++ ':' :: s] = true := by
  have hmatch : matchScope (p ++ [':', '*']) (p ++ ':' :: s) = true := by
    unfold matchScope
    by_cases heq : p ++ [':', '*'] = p ++ ':' :: s
    · rw [if_pos heq]
    · rw [if_neg heq,
        if_pos (by rw [List.isSuffixOf_iff_suffix]
                   exact List.suffix_append p [':', '*'])]
      rw [trimSuffix_append, List.isPrefixOf_iff_prefix]
      refine ⟨s, ?_⟩
      simp
  refine ⟨hmatch, ?_⟩
  simp only [hasAllScopes, List.all_cons, List.all_nil, Bool.and_true]
  rw [List.any_eq_true]
  exact ⟨p ++ [':', '*'], h, hmatch⟩

/-- Witness for C10: a token holding `read:*` satisfies a route requiring
`read:sensors`. -/
theorem matchScope_c10_witness :
    matchScope ("read".data ++ [':', '*'])
        ("read".data ++ ':' :: "sensors".data) = true ∧
    hasAllScopes ["read".data ++ [':', '*']]
        [("read".data ++ ':' :: "sensors".data)] = true :=
  matchScope_c10 "read".data "sensors".data ["read".data ++ [':', '*']]
    (by simp)

/-! ## JWT validation (`internal/auth/jwt.go`)

`jwt.ParseWithClaims` is driven by the key function, which rejects any token
whose `Method` is not a `*jwt.SigningMethodHMAC`; in golang-jwt that type
covers HS256, HS384 and HS512.  A parsed token is embedded as the data the
validation reads: its signature algorithm, whether the signature verifies
under the shared secret, the expiry, and the custom claims. -/

inductive JWTAlg where
  | HS256
  | HS384
  | HS512
  | RS256
  | RS512
  | ES256
  | PS256
  | EdDSA
  | algNone
deriving DecidableEq, Repr

/-- The type assertion `token.Method.(*jwt.SigningMethodHMAC)` in the key
function: exactly the HMAC family. -/
def isHMAC : JWTAlg → Bool
  | .HS256 => true
  | .HS384 => true
  | .HS512 => true
  | _ => false

structure JWTToken where
  alg : JWTAlg
  sigValid : Bool
  expiresAt : Option Nat
  roles : List String
  scopes : List String
  userID : String
  subject : String
deriving DecidableEq, Repr

structure JWTConfig where
  expiryCheck : Bool
  validateRoles : Bool
  validateScopes : Bool
deriving DecidableEq, Repr

structure AuthContext where
  authenticated : Bool
  identityType : String
  userID : String
  roles : List String
  scopes : List String
deriving DecidableEq, Repr

/-- Embeds `ValidateJWT` (after token extraction): the key function fails on
non-HMAC methods, parsing fails on an invalid signature, then expiry, roles
and scopes are validated and the auth context is built, falling back to the
`sub` claim when `user_id` is absent. -/
def validateJWT (now : Nat) (cfg : JWTConfig) (tok : JWTToken) :
    Except String AuthContext :=
  if !isHMAC tok.alg then
    .error "failed to parse token: unexpected signing method"
  else if !tok.sigValid then
    .error "failed to parse token: signature is invalid"
  else if cfg.expiryCheck &&
      (match tok.expiresAt with
       | some e => decide (e < now)
       | Option.none => false) then
    .error "token expired"
  else if cfg.validateRoles && tok.roles.isEmpty then
    .error "token missing required roles"
  else if cfg.validateScopes && tok.scopes.isEmpty then
    .error "token missing required scopes"
  else
    .ok { authenticated := true
          identityType := "user"
          userID := if tok.userID == "" && !(tok.subject == "") then
                      tok.subject
                    else tok.userID
          roles := tok.roles
          scopes := tok.scopes }

example :
    validateJWT 0 ⟨false, false, false⟩
        ⟨.RS256, true, Option.none, [], [], "u", ""⟩
      = .error "failed to parse token: unexpected signing method" := rfl

/-- Counterexample to C5 as stated: a token signed with HS384 — an algorithm
other than HMAC SHA-256 — with a signature that verifies under the shared
secret is accepted by `ValidateJWT` (the key function only checks for the
HMAC family), although the claim requires validation to fail for every
algorithm other than HMAC SHA-256. -/
theorem validateJWT_c5_counterexample :
    validateJWT 0 ⟨false, false, false⟩
        ⟨.HS384, true, Option.none, [], [], "u1", ""⟩
      = .ok ⟨true, "user", "u1", [], []⟩ ∧
    JWTAlg.HS384 ≠ JWTAlg.HS256 := by
  constructor
  · rfl
  · decide

/-- C5 (amended: validation accepts a token only if its signature algorithm
is in the HMAC family — HS256, HS384 or HS512; for every token signed with a
non-HMAC algorithm, validation fails with an error and no auth context is
produced). -/
theorem validateJWT_c5 (now : Nat) (cfg : JWTConfig) (tok : JWTToken) :
    (isHMAC tok.alg = false →
      validateJWT now cfg tok
        = .error "failed to parse token: unexpected signing method") ∧
    (∀ ctx, validateJWT now cfg tok = .ok ctx →
      isHMAC tok.alg = true ∧ ctx.authenticated = true) := by
  constructor
  · intro h
    simp [validateJWT, h]
  · intro ctx hctx
    by_cases h : isHMAC tok.alg
    · refine ⟨h, ?_⟩
      simp only [validateJWT, h, Bool.not_true, Bool.false_eq_true,
        if_false] at hctx
      split_ifs at hctx <;> (cases hctx; try rfl)
    · simp only [Bool.not_eq_true] at h
      simp [validateJWT, h] at hctx

/-- Witness for C5: a token signed with RS256 is rejected with the signing
method error. -/
theorem validateJWT_c5_witness :
    validateJWT 7 ⟨true, true, true⟩
        ⟨.RS256, true, some 100, ["admin"], ["read:*"], "u2", "s2"⟩
      = .error "failed to parse token: unexpected signing method" :=
  (validateJWT_c5 7 ⟨true, true, true⟩
    ⟨.RS256, true, some 100, ["admin"], ["read:*"], "u2", "s2"⟩).1 (by decide)

/-! ## Rate limiter bucket map (`internal/middleware`, `getLimiter`)

`limiterInstance.limiters` is a single package-level `map[string]*rate.Limiter`
keyed by the client key string computed by `getKey` (the `X-Client-ID` header
or the peer IP) — the key carries no route or scope component.  A limiter is
embedded as the parameters it is created with. -/

structure Limiter where
  rps : Int
  burst : Int
deriving DecidableEq, Repr

/-- Embeds `getLimiter`: look the client key up in the process-wide map; on a
miss, create a limiter from the requesting route's `rate`/`burst` and store
it; on a hit, return the stored limiter unchanged (the `rps`/`burst`
arguments are ignored). -/
def getLimiter (key : String) (rps burst : Int)
    (m : List (String × Limiter)) : Limiter × List (String × Limiter) :=
  match m.lookup key with
  | some l => (l, m)
  | Option.none =>
      let l : Limiter := ⟨rps, burst⟩
      (l, (key, l) :: m)

/-- Counterexample to C6 as stated: two routes with different rate-limit
configurations (rate 10 burst 5, rate 100 burst 50) and the same client key
draw from the same bucket — the second `getLimiter` call returns the bucket
created by the first, with the first route's parameters — although the claim
requires two distinct buckets, each with its own rate and burst. -/
theorem rateLimiter_c6_counterexample :
    (getLimiter "10.0.0.1" 100 50 (getLimiter "10.0.0.1" 10 5 []).2).1
      = (getLimiter "10.0.0.1" 10 5 []).1 ∧
    (getLimiter "10.0.0.1" 10 5 []).1 = ⟨10, 5⟩ ∧
    (getLimiter "10.0.0.1" 100 50 (getLimiter "10.0.0.1" 10 5 []).2).2
      = (getLimiter "10.0.0.1" 10 5 []).2 ∧
    (⟨10, 5⟩ : Limiter) ≠ ⟨100, 50⟩ := by
  refine ⟨rfl, rfl, rfl, by decide⟩

/-- C6 (amended: buckets live in a single process-wide map keyed by the
client key alone — IP or client_id, with no route scope; a bucket is created
lazily with the first rate/burst seen for that key, and every later request
with the same key, from any route and with any configuration, reuses that
bucket unchanged). -/
theorem rateLimiter_c6 (key : String) (rps1 burst1 rps2 burst2 : Int)
    (m : List (String × Limiter)) :
    (m.lookup key = Option.none →
      (getLimiter key rps1 burst1 m).1 = ⟨rps1, burst1⟩ ∧
      (getLimiter key rps1 burst1 m).2 = (key, ⟨rps1, burst1⟩) :: m) ∧
    (getLimiter key rps2 burst2 (getLimiter key rps1 burst1 m).2).1
      = (getLimiter key rps1 burst1 m).1 := by
  constructor
  · intro hnone
    simp [getLimiter, hnone]
  · cases hl : m.lookup key with
    | none =>
        simp [getLimiter, hl, List.lookup]
    | some l =>
        simp [getLimiter, hl]

/-- Witness for C6: the first request for a fresh client key creates the
bucket with that route's parameters. -/
theorem rateLimiter_c6_witness :
    (getLimiter "10.0.0.1" 7 3 []).1 = ⟨7, 3⟩ ∧
    (getLimiter "10.0.0.1" 7 3 []).2 = [("10.0.0.1", ⟨7, 3⟩)] :=
  (rateLimiter_c6 "10.0.0.1" 7 3 0 0 []).1 rfl

/-! ## Header transform (`internal/middleware/transform.go`, request side)

Header maps are embedded as functions `String → Option String`
(`http.Header.Set` replaces, `Del` removes; Go's MIME canonicalization of
keys is orthogonal here and keys are compared verbatim).  `generateRequestID`
returns `time.Now().UnixNano()` formatted as a string, so every application
of the transform substitutes a fresh value for `${request_id}`; the two
request IDs are therefore separate parameters of the embedding. -/

def setHeader (k v : String) (h : String → Option String) :
    String → Option String :=
  fun j => if j = k then some v else h j

def delHeader (k : String) (h : String → Option String) :
    String → Option String :=
  fun j => if j = k then Option.none else h j

/-- Embeds `strings.ReplaceAll` for a non-empty pattern: scan left to right,
replacing non-overlapping occurrences and continuing after each replacement.
The fuel argument (instantiated with the string length, which bounds the
number of recursion steps) makes the recursion structural. -/
def replaceAllFuel (pat rep : List Char) : Nat → List Char → List Char
  | _, [] => []
  | 0, s => s
  | fuel + 1, c :: rest =>
      if pat.isPrefixOf (c :: rest) then
        rep ++ replaceAllFuel pat rep fuel (rest.drop (pat.length - 1))
      else
        c :: replaceAllFuel pat rep fuel rest

def replaceAll (pat rep s : List Char) : List Char :=
  replaceAllFuel pat rep s.length s

/-- Whether `pat` occurs as a contiguous substring of the argument. -/
def hasSubstr (pat : List Char) : List Char → Bool
  | [] => pat.isEmpty
  | c :: rest => pat.isPrefixOf (c :: rest) || hasSubstr pat rest

example :
    replaceAll "${request_id}".data "17".data "id=${request_id}!".data
      = "id=17!".data := by decide

/-- The variable substitution applied to each added header value:
`${request_id}` first, then `${remote_addr}`. -/
def substituteVars (requestID remoteAddr v : String) : String :=
  ⟨replaceAll "${remote_addr}".data remoteAddr.data
    (replaceAll "${request_id}".data requestID.data v.data)⟩

/-- Embeds the request half of `Transform`: add each configured header with
variables substituted (`http.Header.Set`), then delete each header in the
remove list (`http.Header.Del`).  `requestID` is the value
`generateRequestID()` produced for this application. -/
def transformRequest (requestID remoteAddr : String)
    (addHeaders : List (String × String)) (removeHeaders : List String)
    (h : String → Option String) : String → Option String :=
  removeHeaders.foldl (fun acc r => delHeader r acc)
    (addHeaders.foldl
      (fun acc kv => setHeader kv.1 (substituteVars requestID remoteAddr kv.2) acc)
      h)

lemma replaceAllFuel_no_occur (pat rep : List Char) :
    ∀ (fuel : Nat) (s : List Char), s.length ≤ fuel →
      hasSubstr pat s = false → replaceAllFuel pat rep fuel s = s := by
  intro fuel
  induction fuel with
  | zero =>
      intro s hs _
      cases s with
      | nil => rfl
      | cons c rest => simp at hs
  | succ n ih =>
      intro s hs hno
      cases s with
      | nil => rfl
      | cons c rest =>
          simp only [hasSubstr, Bool.or_eq_false_iff] at hno
          simp only [replaceAllFuel]
          rw [if_neg (by simp [hno.1])]
          rw [ih rest (by simpa using Nat.le_of_succ_le_succ hs) hno.2]

lemma replaceAll_no_occur (pat rep s : List Char)
    (hno : hasSubstr pat s = false) : replaceAll pat rep s = s :=
  replaceAllFuel_no_occur pat rep s.length s le_rfl hno

lemma substituteVars_no_requestID (rid1 rid2 addr v : String)
    (hno : hasSubstr "${request_id}".data v.data = false) :
    substituteVars rid2 addr v = substituteVars rid1 addr v := by
  unfold substituteVars
  rw [replaceAll_no_occur _ _ _ hno, replaceAll_no_occur _ _ _ hno]

/-- The value the fold of `Set` operations leaves at key `k`: the last value
in the add list for that key, if any. -/
def lastVal (k : String) : List (String × String) → Option String
  | [] => Option.none
  | kv :: rest =>
      match lastVal k rest with
      | some v => some v
      | Option.none => if kv.1 = k then some kv.2 else Option.none

lemma foldl_set_apply (f : String → String) :
    ∀ (adds : List (String × String)) (h : String → Option String)
      (k : String),
      (adds.foldl (fun acc kv => setHeader kv.1 (f kv.2) acc) h) k
        = match lastVal k adds with
          | some v => some (f v)
          | Option.none => h k := by
  intro adds
  induction adds with
  | nil => intro h k; rfl
  | cons kv rest ih =>
      intro h k
      simp only [List.foldl_cons, lastVal]
      rw [ih]
      cases hl : lastVal k rest with
      | some v => rfl
      | none =>
          by_cases hk : k = kv.1
          · subst hk
            simp [setHeader]
          · simp only [setHeader]
            rw [if_neg hk, if_neg (fun hh => hk hh.symm)]

lemma foldl_del_apply :
    ∀ (removes : List String) (h : String → Option String) (k : String),
      (removes.foldl (fun acc r => delHeader r acc) h) k
        = if k ∈ removes then Option.none else h k := by
  intro removes
  induction removes with
  | nil => intro h k; simp
  | cons r rest ih =>
      intro h k
      simp only [List.foldl_cons]
      rw [ih]
      by_cases hk : k ∈ rest
      · simp [hk]
      · by_cases hkr : k = r
        · subst hkr
          simp [hk, delHeader]
        · simp [hk, hkr, delHeader]

lemma lastVal_mem :
    ∀ (adds : List (String × String)) (k v : String),
      lastVal k adds = some v → ∃ kv ∈ adds, kv.1 = k ∧ kv.2 = v := by
  intro adds
  induction adds with
  | nil => intro k v hl; simp [lastVal] at hl
  | cons kv rest ih =>
      intro k v hl
      simp only [lastVal] at hl
      cases hlr : lastVal k rest with
      | some w =>
          rw [hlr] at hl
          cases hl
          obtain ⟨kv', hmem, hprop⟩ := ih k v hlr
          exact ⟨kv', List.mem_cons_of_mem kv hmem, hprop⟩
      | none =>
          rw [hlr] at hl
          by_cases h1 : kv.1 = k
          · rw [if_pos h1] at hl
            cases hl
            exact ⟨kv, List.mem_cons_self kv rest, h1, rfl⟩
          · rw [if_neg h1] at hl
            cases hl

lemma transformRequest_apply (rid addr : String)
    (adds : List (String × String)) (removes : List String)
    (h : String → Option String) (k : String) :
    transformRequest rid addr adds removes h k
      = if k ∈ removes then Option.none
        else match lastVal k adds with
          | some v => some (substituteVars rid addr v)
          | Option.none => h k := by
  unfold transformRequest
  rw [foldl_del_apply, foldl_set_apply]

/-- Counterexample to C9 as stated: an `add_headers` entry whose value is
`${request_id}` is substituted with a fresh `generateRequestID()` value
(`time.Now().UnixNano()`) at every application, so applying the request
transform a second time to the already-transformed header set changes the
header (here from "1" to "2") instead of being a no-op. -/
theorem transform_c9_counterexample :
    transformRequest "2" "127.0.0.1:5000"
        [("X-Request-Id", "${request_id}")] []
        (transformRequest "1" "127.0.0.1:5000"
          [("X-Request-Id", "${request_id}")] [] (fun _ => Option.none))
      ≠ transformRequest "1" "127.0.0.1:5000"
          [("X-Request-Id", "${request_id}")] [] (fun _ => Option.none) := by
  intro hcontra
  exact absurd (congrFun hcontra "X-Request-Id") (by decide)

/-- C9 (amended: repeated application of the request transform to the
already-transformed header set yields exactly the same headers provided no
`add_headers` value contains the `${request_id}` variable — whose substituted
value is freshly generated on every application; values containing
`${remote_addr}` are fine, since the remote address is stable for the
request, and add/remove are idempotent). -/
theorem transform_c9 (rid1 rid2 addr : String)
    (addHeaders : List (String × String)) (removeHeaders : List String)
    (h : String → Option String)
    (hno : ∀ kv ∈ addHeaders,
      hasSubstr "${request_id}".data (Prod.snd kv).data = false) :
    transformRequest rid2 addr addHeaders removeHeaders
        (transformRequest rid1 addr addHeaders removeHeaders h)
      = transformRequest rid1 addr addHeaders removeHeaders h := by
  funext k
  rw [transformRequest_apply, transformRequest_apply]
  by_cases hmem : k ∈ removeHeaders
  · simp [hmem]
  · simp only [if_neg hmem]
    cases hl : lastVal k addHeaders with
    | none => rfl
    | some v =>
        obtain ⟨kv, hkv, _, hv2⟩ := lastVal_mem addHeaders k v hl
        show some (substituteVars rid2 addr v) = some (substituteVars rid1 addr v)
        rw [substituteVars_no_requestID rid1 rid2 addr v (hv2 ▸ hno kv hkv)]

/-- Witness for C9: a transform adding a constant header and a
`${remote_addr}` header and removing one header is a no-op on repeat. -/
theorem transform_c9_witness :
    transformRequest "2" "10.1.2.3:4444"
        [("X-Forwarded-Proto", "https"), ("X-Addr", "${remote_addr}")]
        ["X-Internal"]
        (transformRequest "1" "10.1.2.3:4444"
          [("X-Forwarded-Proto", "https"), ("X-Addr", "${remote_addr}")]
          ["X-Internal"]
          (fun j => if j = "X-Internal" then some "x" else Option.none))
      = transformRequest "1" "10.1.2.3:4444"
          [("X-Forwarded-Proto", "https"), ("X-Addr", "${remote_addr}")]
          ["X-Internal"]
          (fun j => if j = "X-Internal" then some "x" else Option.none) :=
  transform_c9 "1" "2" "10.1.2.3:4444"
    [("X-Forwarded-Proto", "https"), ("X-Addr", "${remote_addr}")]
    ["X-Internal"]
    (fun j => if j = "X-Internal" then some "x" else Option.none)
    (by decide)

/-! ## Response cache (`internal/cache/cache.go`)

The Go store is `map[string]*Entry` under a lock; it is embedded as a
function `String → Option CacheEntry`.  The cache key is
`hex(sha256(method ∥ r.URL.String()))` (`crypto/sha256`); SHA-256 is
implemented below over byte lists in `uint32` arithmetic (strings are taken
as their code points, which agrees with Go's `[]byte` conversion for ASCII
keys).  `Entry.IsExpired` is `time.Since(CreatedAt) > TTL`. -/

def sha256K : List Nat :=
  [1116352408, 1899447441, 3049323471, 3921009573, 961987163, 1508970993,
   2453635748, 2870763221, 3624381080, 310598401, 607225278, 1426881987,
   1925078388, 2162078206, 2614888103, 3248222580, 3835390401, 4022224774,
   264347078, 604807628, 770255983, 1249150122, 1555081692, 1996064986,
   2554220882, 2821834349, 2952996808, 3210313671, 3336571891, 3584528711,
   113926993, 338241895, 666307205, 773529912, 1294757372, 1396182291,
   1695183700, 1986661051, 2177026350, 2456956037, 2730485921, 2820302411,
   3259730800, 3345764771, 3516065817, 3600352804, 4094571909, 275423344,
   430227734, 506948616, 659060556, 883997877, 958139571, 1322822218,
   1537002063, 1747873779, 1955562222, 2024104815, 2227730452, 2361852424,
   2428436474, 2756734187, 3204031479, 3329325298]

def sha256H0 : List Nat :=
  [1779033703, 3144134277, 1013904242, 2773480762, 1359893119, 2600822924,
   528734635, 1541459225]

/-- Right rotation by `n` bits of a 32-bit word. -/
def rotr32 (n x : Nat) : Nat :=
  x / 2 ^ n + x % 2 ^ n * 2 ^ (32 - n)

/-- Big-endian 64-bit encoding of the message bit length. -/
def be64 (n : Nat) : List Nat :=
  [n / 2 ^ 56 % 256, n / 2 ^ 48 % 256, n / 2 ^ 40 % 256, n / 2 ^ 32 % 256,
   n / 2 ^ 24 % 256, n / 2 ^ 16 % 256, n / 2 ^ 8 % 256, n % 256]

/-- SHA-256 padding: `0x80`, zeros to 56 mod 64, 8-byte bit length. -/
def sha256pad (msg : List Nat) : List Nat :=
  msg ++ 0x80 :: List.replicate ((119 - msg.length % 64) % 64) 0
    ++ be64 (msg.length * 8)

/-- Message-schedule extension from 16 to 64 words. -/
def sha256extendW : Nat → List Nat → List Nat
  | 0, w => w
  | n + 1, w =>
      let l := w.length
      let w15 := w.getD (l - 15) 0
      let w2 := w.getD (l - 2) 0
      let s0 := rotr32 7 w15 ^^^ rotr32 18 w15 ^^^ w15 / 2 ^ 3
      let s1 := rotr32 17 w2 ^^^ rotr32 19 w2 ^^^ w2 / 2 ^ 10
      sha256extendW n
        (w ++ [(w.getD (l - 16) 0 + s0 + w.getD (l - 7) 0 + s1) % 2 ^ 32])

/-- One SHA-256 compression over a 64-byte chunk. -/
def sha256compress (hs chunk : List Nat) : List Nat :=
  let w0 := (List.range 16).map fun i =>
    chunk.getD (4 * i) 0 * 2 ^ 24 + chunk.getD (4 * i + 1) 0 * 2 ^ 16 +
      chunk.getD (4 * i + 2) 0 * 2 ^ 8 + chunk.getD (4 * i + 3) 0
  let w := sha256extendW 48 w0
  let st := (List.range 64).foldl
    (fun (st : List Nat) i =>
      let a := st.getD 0 0
      let b := st.getD 1 0
      let c := st.getD 2 0
      let d := st.getD 3 0
      let e := st.getD 4 0
      let f := st.getD 5 0
      let g := st.getD 6 0
      let hh := st.getD 7 0
      let s1 := rotr32 6 e ^^^ rotr32 11 e ^^^ rotr32 25 e
      let ch := (e &&& f) ^^^ ((2 ^ 32 - 1 - e) &&& g)
      let t1 := (hh + s1 + ch + sha256K.getD i 0 + w.getD i 0) % 2 ^ 32
      let s0 := rotr32 2 a ^^^ rotr32 13 a ^^^ rotr32 22 a
      let maj := (a &&& b) ^^^ (a &&& c) ^^^ (b &&& c)
      let t2 := (s0 + maj) % 2 ^ 32
      [(t1 + t2) % 2 ^ 32, a, b, c, (d + t1) % 2 ^ 32, e, f, g])
    hs
  List.zipWith (fun x y => (x + y) % 2 ^ 32) hs st

/-- Processes the padded message 64 bytes at a time (the fuel, instantiated
with the padded length, makes the recursion structural). -/
def sha256chunks : Nat → List Nat → List Nat → List Nat
  | 0, hs, _ => hs
  | _ + 1, hs, [] => hs
  | fuel + 1, hs, msg =>
      sha256chunks fuel (sha256compress hs (msg.take 64)) (msg.drop 64)

/-- SHA-256 digest (32 bytes) of a byte list, as in `crypto/sha256`. -/
def sha256 (msg : List Nat) : List Nat :=
  (sha256chunks (sha256pad msg).length sha256H0 (sha256pad msg)).foldr
    (fun wd acc =>
      wd / 2 ^ 24 % 256 :: wd / 2 ^ 16 % 256 :: wd / 2 ^ 8 % 256 ::
        wd % 256 :: acc)
    []

set_option maxRecDepth 8192 in
example :
    sha256 [97, 98, 99]
      = [186, 120, 22, 191, 143, 1, 207, 234, 65, 65, 64, 222, 93, 174, 34,
         35, 176, 3, 97, 163, 150, 23, 122, 156, 180, 16, 255, 97, 242, 0,
         21, 173] := by decide

def hexNib (n : Nat) : Char :=
  if n < 10 then Char.ofNat (48 + n) else Char.ofNat (87 + n)

/-- Hex encoding, `hex.EncodeToString`. -/
def bytesToHex (bs : List Nat) : List Char :=
  bs.foldr (fun b acc => hexNib (b / 16) :: hexNib (b % 16) :: acc) []

def strBytes (s : String) : List Nat :=
  s.data.map Char.toNat

/-- Embeds `Cache.generateKey`: the hex SHA-256 digest of
`method ∥ r.URL.String()` (the full URL including the query). -/
def generateKey (method url : String) : String :=
  ⟨bytesToHex (sha256 (strBytes method ++ strBytes url))⟩

structure CacheEntry where
  statusCode : Nat
  headers : String → Option String
  body : List Nat
  createdAt : Nat
  ttl : Nat

structure HTTPResponse where
  statusCode : Nat
  headers : String → Option String
  body : List Nat

structure CacheConfig where
  methods : List String
  ttl : Nat

/-- Embeds `Entry.IsExpired`: `time.Since(e.CreatedAt) > e.TTL`. -/
def isExpired (now : Nat) (e : CacheEntry) : Bool :=
  decide (e.ttl < now - e.createdAt)

/-- Embeds `Cache.get`: a stored entry is returned unless it is expired. -/
def cacheGet (store : String → Option CacheEntry) (now : Nat) (key : String) :
    Option CacheEntry :=
  match store key with
  | some e => if isExpired now e then Option.none else some e
  | Option.none => Option.none

/-- Embeds `Cache.set` on the map. -/
def setStore (k : String) (e : CacheEntry)
    (store : String → Option CacheEntry) : String → Option CacheEntry :=
  fun j => if j = k then some e else store j

/-- Embeds `Cache.serveFromCache`: the stored headers (over the fresh
response writer) with `X-Cache: HIT` set afterwards, the stored status and
the stored body. -/
def serveFromCache (e : CacheEntry) : HTTPResponse :=
  ⟨e.statusCode, setHeader "X-Cache" "HIT" e.headers, e.body⟩

/-- Embeds `Cache.Middleware` for one request: returns the produced
response, the updated store, and whether the inner pipeline was invoked.
Non-cacheable methods pass through; a hit serves the stored entry without
invoking the inner handler; a miss invokes it and stores the recorded
response exactly when its status is 200. -/
def cacheMiddleware (cfg : CacheConfig) (store : String → Option CacheEntry)
    (now : Nat) (method url : String) (inner : HTTPResponse) :
    HTTPResponse × (String → Option CacheEntry) × Bool :=
  if !(cfg.methods.contains method) then (inner, store, true)
  else
    match cacheGet store now (generateKey method url) with
    | some e => (serveFromCache e, store, false)
    | Option.none =>
        if inner.statusCode = 200 then
          (inner,
           setStore (generateKey method url)
             ⟨inner.statusCode, inner.headers, inner.body, now, cfg.ttl⟩
             store,
           true)
        else
          (inner, store, true)

lemma cacheGet_some_iff (store : String → Option CacheEntry) (now : Nat)
    (key : String) (e : CacheEntry) :
    cacheGet store now key = some e ↔
      store key = some e ∧ now - e.createdAt ≤ e.ttl := by
  unfold cacheGet
  cases hs : store key with
  | none => simp
  | some e2 =>
      show (if isExpired now e2 = true then Option.none else some e2) = some e
        ↔ some e2 = some e ∧ now - e.createdAt ≤ e.ttl
      by_cases hexp : e2.ttl < now - e2.createdAt
      · rw [if_pos (by simp only [isExpired, decide_eq_true_eq]; omega)]
        constructor
        · intro h2
          cases h2
        · rintro ⟨heq, hle⟩
          injection heq with heq2
          subst heq2
          omega
      · rw [if_neg (by simp only [isExpired, decide_eq_true_eq,
          Bool.not_eq_true, decide_eq_false_iff_not]; omega)]
        constructor
        · intro h2
          injection h2 with h3
          subst h3
          exact ⟨rfl, by omega⟩
        · rintro ⟨heq, _⟩
          exact heq

lemma cacheGet_none_iff (store : String → Option CacheEntry) (now : Nat)
    (key : String) :
    cacheGet store now key = Option.none ↔
      ∀ e, store key = some e → e.ttl < now - e.createdAt := by
  unfold cacheGet
  cases hs : store key with
  | none => simp
  | some e2 =>
      show (if isExpired now e2 = true then Option.none else some e2)
          = Option.none
        ↔ ∀ e, some e2 = some e → e.ttl < now - e.createdAt
      by_cases hexp : e2.ttl < now - e2.createdAt
      · rw [if_pos (by simp only [isExpired, decide_eq_true_eq]; omega)]
        constructor
        · intro _ e heq
          injection heq with h3
          subst h3
          exact hexp
        · intro _
          rfl
      · rw [if_neg (by simp only [isExpired, decide_eq_true_eq,
          Bool.not_eq_true, decide_eq_false_iff_not]; omega)]
        constructor
        · intro h2
          cases h2
        · intro hall
          exact absurd (hall e2 rfl) hexp

/-- Counterexample to C4 as stated: an entry created at time 0 with
`ttl = 5`, looked up at time 5 — so `now − created_at < ttl` fails — is
still served from the cache (the inner pipeline is not invoked), because
`IsExpired` is `time.Since(CreatedAt) > TTL`, which keeps the entry valid at
`elapsed == ttl`. -/
theorem cache_c4_counterexample :
    (cacheMiddleware ⟨["GET"], 5⟩
        (setStore (generateKey "GET" "http://u/a?q=1")
          ⟨200, fun _ => Option.none, [1], 0, 5⟩ fun _ => Option.none)
        5 "GET" "http://u/a?q=1" ⟨200, fun _ => Option.none, [2]⟩).2.2
      = false ∧
    ¬ (5 - (0 : Nat) < 5) := by
  constructor
  · simp only [cacheMiddleware]
    rw [show (!(["GET"] : List String).contains "GET") = false from rfl]
    simp only [Bool.false_eq_true, if_false]
    rw [show cacheGet
        (setStore (generateKey "GET" "http://u/a?q=1")
          ⟨200, fun _ => Option.none, [1], 0, 5⟩ fun _ => Option.none)
        5 (generateKey "GET" "http://u/a?q=1")
        = some ⟨200, fun _ => Option.none, [1], 0, 5⟩ from by
      simp [cacheGet, setStore, isExpired]]
  · decide

/-- C4 (amended: the cache serves a stored entry — the stored status,
headers and body with `X-Cache: HIT` added, without invoking the inner
pipeline — if and only if an entry exists under the key
`SHA-256(method ∥ full URL)` and is unexpired, i.e.
`now − created_at ≤ ttl` (not `<`); on a miss the inner response is stored
only when its status is 200). -/
theorem cache_c4 (cfg : CacheConfig) (store : String → Option CacheEntry)
    (now : Nat) (method url : String) (inner : HTTPResponse)
    (hm : cfg.methods.contains method = true) :
    (∀ e, store (generateKey method url) = some e →
      now - e.createdAt ≤ e.ttl →
      cacheMiddleware cfg store now method url inner
        = (⟨e.statusCode, setHeader "X-Cache" "HIT" e.headers, e.body⟩,
           store, false)) ∧
    ((∀ e, store (generateKey method url) = some e →
        e.ttl < now - e.createdAt) →
      cacheMiddleware cfg store now method url inner
        = (inner,
           if inner.statusCode = 200 then
             setStore (generateKey method url)
               ⟨inner.statusCode, inner.headers, inner.body, now, cfg.ttl⟩
               store
           else store,
           true)) ∧
    ((cacheMiddleware cfg store now method url inner).2.2 = false ↔
      ∃ e, store (generateKey method url) = some e ∧
        now - e.createdAt ≤ e.ttl) := by
  have hmem : method ∈ cfg.methods := by simpa using hm
  refine ⟨?_, ?_, ?_⟩
  · intro e hse hle
    have hget : cacheGet store now (generateKey method url) = some e :=
      (cacheGet_some_iff store now _ e).2 ⟨hse, hle⟩
    simp [cacheMiddleware, hmem, hget, serveFromCache]
  · intro hall
    have hget : cacheGet store now (generateKey method url) = Option.none :=
      (cacheGet_none_iff store now _).2 hall
    simp only [cacheMiddleware, hm, Bool.not_true, Bool.false_eq_true,
      if_false, hget]
    split_ifs <;> rfl
  · cases hget : cacheGet store now (generateKey method url) with
    | some e =>
        obtain ⟨h1, h2⟩ := (cacheGet_some_iff store now _ e).1 hget
        simp [cacheMiddleware, hmem, hget]
        exact ⟨e, h1, by omega⟩
    | none =>
        simp only [cacheMiddleware, hm, Bool.not_true, Bool.false_eq_true,
          if_false, hget]
        constructor
        · intro hfalse
          split_ifs at hfalse <;> cases hfalse
        · rintro ⟨e, hse, hle⟩
          have : cacheGet store now (generateKey method url) = some e :=
            (cacheGet_some_iff store now _ e).2 ⟨hse, hle⟩
          rw [hget] at this
          cases this

/-- Witness for C4: a fresh entry (created at 0, ttl 5, looked up at 3) is
served with `X-Cache: HIT` and the inner pipeline is not invoked. -/
theorem cache_c4_witness :
    cacheMiddleware ⟨["GET"], 5⟩
        (setStore (generateKey "GET" "http://u/a?q=1")
          ⟨200, fun _ => Option.none, [1], 0, 5⟩ fun _ => Option.none)
        3 "GET" "http://u/a?q=1" ⟨200, fun _ => Option.none, [2]⟩
      = (⟨200, setHeader "X-Cache" "HIT" (fun _ => Option.none), [1]⟩,
         setStore (generateKey "GET" "http://u/a?q=1")
           ⟨200, fun _ => Option.none, [1], 0, 5⟩ fun _ => Option.none,
         false) :=
  (cache_c4 ⟨["GET"], 5⟩
      (setStore (generateKey "GET" "http://u/a?q=1")
        ⟨200, fun _ => Option.none, [1], 0, 5⟩ fun _ => Option.none)
      3 "GET" "http://u/a?q=1" ⟨200, fun _ => Option.none, [2]⟩
      (by decide)).1
    ⟨200, fun _ => Option.none, [1], 0, 5⟩
    (by simp [setStore]) (by decide)

end Gonk
